import Mathlib

/-!
Verification of the Aoryx hotel-booking front end's data-normalization and
route-handler logic (`lib/aoryx-client.ts`, the favorites route, and the
results-page sort comparators), via a shallow embedding of the relevant
TypeScript into Lean.

Modelling conventions:
* A parsed JSON value is the inductive `Json`; numbers are rationals (every
  number produced by `JSON.parse` is a finite double, and no claim depends on
  double rounding).  A JavaScript value that may also be `undefined` is
  `JsVal := Option Json`, with `none` playing `undefined` and `Json.null`
  playing `null`.
* JavaScript property access `x.K` throws a `TypeError` when `x` is nullish;
  embeddings of functions that perform unguarded accesses on possibly nullish
  values return `Except` with an explicit error case for that.
* `parseFloat` / `Number(...)` are modelled on decimal numerals (sign,
  digits, fraction, exponent); results that would be `NaN` or `±Infinity`
  are `none`, which composes correctly with the `Number.isFinite` guards in
  the source.  `String(n)` for a finite number is modelled by a finite
  decimal rendering; no theorem depends on its exact digits, only on it
  being a nonempty whitespace-free string.
-/

inductive Json where
  | null
  | bool (b : Bool)
  | num (q : ℚ)
  | str (s : String)
  | arr (items : List Json)
  | obj (fields : List (String × Json))

/-- A JavaScript value: `none` is `undefined`, `some Json.null` is `null`. -/
abbrev JsVal : Type := Option Json

/-- JS `value === null || value === undefined` (the nullish test used by `??`). -/
def jsNullish : JsVal → Bool
  | none => true
  | some .null => true
  | _ => false

/-- JS truthiness (`Boolean(value)`); model numbers are finite so only `0` is falsy. -/
def jsTruthy : JsVal → Bool
  | none => false
  | some .null => false
  | some (.bool b) => b
  | some (.num q) => decide (q ≠ 0)
  | some (.str s) => decide (s ≠ "")
  | some (.arr _) => true
  | some (.obj _) => true

/-- JS nullish coalescing `a ?? b`. -/
def jsCoalesce (a b : JsVal) : JsVal :=
  if jsNullish a then b else a

/-- Key lookup in a JS object (`fields` lists the object's own properties in order). -/
def objGet (fields : List (String × Json)) (k : String) : JsVal :=
  (fields.find? (fun p => p.1 == k)).map Prod.snd

/-- Property access `j.K` on a value known not to be nullish: objects look up the
key, primitives and arrays yield `undefined` for the property names used here. -/
def jsGetJ (j : Json) (k : String) : JsVal :=
  match j with
  | .obj fields => objGet fields k
  | _ => none

/-- Optional-chained access `v?.K`: `undefined` when `v` is nullish. -/
def jsGetOpt (v : JsVal) (k : String) : JsVal :=
  match v with
  | none => none
  | some .null => none
  | some j => jsGetJ j k

/-- The whitespace characters relevant to JS `trim` for this model. -/
def jsIsWs (c : Char) : Bool :=
  c = ' ' || c = '\t' || c = '\n' || c = '\r'

/-- JS `String.prototype.trim` on a character list. -/
def jsTrimList (cs : List Char) : List Char :=
  ((cs.dropWhile jsIsWs).reverse.dropWhile jsIsWs).reverse

/-- JS `String.prototype.trim`. -/
def jsTrim (s : String) : String :=
  ⟨jsTrimList s.toList⟩

/-- Splits a leading run of decimal digits off a character list. -/
def takeDigits : List Char → (List Nat × List Char)
  | [] => ([], [])
  | c :: cs =>
    if c.isDigit then
      let r := takeDigits cs
      ((c.toNat - 48) :: r.1, r.2)
    else ([], c :: cs)

/-- Value of a digit list read as a base-10 integer. -/
def natOfDigits (ds : List Nat) : ℚ :=
  ds.foldl (fun a d => a * 10 + (d : ℚ)) 0

/-- Value of a digit list read as a base-10 fraction `0.d₀d₁…`. -/
def fracOfDigits (ds : List Nat) : ℚ :=
  ds.foldr (fun d a => ((d : ℚ) + a) / 10) 0

/-- Consumes a complete exponent suffix (`e`/`E`, optional sign, digits); when the
suffix is not well formed nothing is consumed, as in JS `parseFloat`. -/
def takeExp : List Char → (ℤ × List Char)
  | [] => (0, [])
  | c :: cs =>
    if c = 'e' ∨ c = 'E' then
      match cs with
      | '+' :: cs2 =>
        let r := takeDigits cs2
        if r.1 = [] then (0, c :: cs) else (((natOfDigits r.1).num), r.2)
      | '-' :: cs2 =>
        let r := takeDigits cs2
        if r.1 = [] then (0, c :: cs) else ((-(natOfDigits r.1).num), r.2)
      | cs2 =>
        let r := takeDigits cs2
        if r.1 = [] then (0, c :: cs) else (((natOfDigits r.1).num), r.2)
    else (0, c :: cs)

/-- Parses an unsigned decimal numeral (digits, optional fraction, optional
exponent) off the front of a character list, returning its value and the
unconsumed rest; `none` when no digits are found. -/
def parseDecCore (cs : List Char) : Option (ℚ × List Char) :=
  let ri := takeDigits cs
  match ri.2 with
  | '.' :: cs2 =>
    let rf := takeDigits cs2
    if ri.1 = [] ∧ rf.1 = [] then none
    else
      let re := takeExp rf.2
      some ((natOfDigits ri.1 + fracOfDigits rf.1) * (10 : ℚ) ^ re.1, re.2)
  | _ =>
    if ri.1 = [] then none
    else
      let re := takeExp ri.2
      some (natOfDigits ri.1 * (10 : ℚ) ^ re.1, re.2)

/-- Signed decimal numeral off the front of a character list. -/
def parseSignedDec (cs : List Char) : Option (ℚ × List Char) :=
  match cs with
  | '+' :: rest => parseDecCore rest
  | '-' :: rest => (parseDecCore rest).map (fun r => (-r.1, r.2))
  | rest => parseDecCore rest

/-- JS `parseFloat`: skip leading whitespace, read a signed decimal prefix,
ignore the rest; `none` models a `NaN` result (callers guard with
`Number.isFinite`). -/
def jsParseFloat (s : String) : Option ℚ :=
  (parseSignedDec (s.toList.dropWhile jsIsWs)).map Prod.fst

/-- JS `Number(s)` for a string: trims, empty means `0`, otherwise the whole
string must be a decimal numeral; `none` models `NaN` (and the `Infinity` and
radix-prefixed forms, which the claims do not exercise). -/
def jsNumberOfString (s : String) : Option ℚ :=
  let t := jsTrimList s.toList
  if t = [] then some 0
  else
    match parseSignedDec t with
    | some (q, []) => some q
    | _ => none

/-- Decimal digit character for `d < 10`. -/
def digitChar (d : Nat) : Char :=
  Char.ofNat (48 + d)

/-- Decimal digits of `n` (auxiliary, fuelled). -/
def natDigitsAux : Nat → Nat → List Char
  | 0, _ => []
  | fuel + 1, n =>
    if n < 10 then [digitChar n]
    else natDigitsAux fuel (n / 10) ++ [digitChar (n % 10)]

/-- Decimal digits of a natural number; always nonempty. -/
def natToChars (n : Nat) : List Char :=
  natDigitsAux (n + 1) n

/-- Up to `fuel` decimal digits of a rational in `[0, 1)`, stopping at zero. -/
def fracDigitChars : Nat → ℚ → List Char
  | 0, _ => []
  | fuel + 1, q =>
    if q = 0 then []
    else
      let q10 := q * 10
      digitChar (⌊q10⌋).toNat :: fracDigitChars fuel (q10 - ⌊q10⌋)

/-- Character-list rendering of JS `String(n)` for a finite number: sign,
integer digits, then a fractional part.  JS prints the shortest round-tripping
decimal of a double; the model prints a finite decimal expansion instead, and
no theorem depends on the exact digits. -/
def numToChars (q : ℚ) : List Char :=
  let a := |q|
  let fracs := fracDigitChars 20 (a - ⌊a⌋)
  (if q < 0 then ['-'] else []) ++ natToChars (⌊a⌋).toNat ++
    (if fracs = [] then [] else '.' :: fracs)

/-- JS `String(n)` for a finite number. -/
def numToString (q : ℚ) : String :=
  ⟨numToChars q⟩

/-- Embeds `toStringValue` (aoryx-client.ts:81): trimmed nonempty strings pass
through trimmed; finite numbers are stringified (every model number is finite);
everything else is `null`. -/
def toStringValue : JsVal → Option String
  | some (.str s) => if (jsTrim s).length > 0 then some (jsTrim s) else none
  | some (.num q) => some (numToString q)
  | _ => none

/-- Embeds `toNumber` (aoryx-client.ts:91): finite numbers pass through,
strings go through `parseFloat` guarded by `Number.isFinite`, else `null`. -/
def toNumber : JsVal → Option ℚ
  | some (.num q) => some q
  | some (.str s) => jsParseFloat s
  | _ => none

/-- JS `Math.round`: half-up, ties toward positive infinity. -/
def jsRound (q : ℚ) : ℤ :=
  ⌊q + 1 / 2⌋

/-- Embeds `toInteger` (aoryx-client.ts:102). -/
def toInteger (v : JsVal) : Option ℤ :=
  (toNumber v).map jsRound

/-- JS `String.prototype.toLowerCase`, on the character list (ASCII model). -/
def strToLower (s : String) : String :=
  ⟨s.toList.map Char.toLower⟩

/-- Embeds `toBoolean` (aoryx-client.ts:224). -/
def toBoolean : JsVal → Option Bool
  | some (.bool b) => some b
  | some (.num q) =>
    if q = 1 then some true else if q = 0 then some false else none
  | some (.str s) =>
    let n := strToLower (jsTrim s)
    if n ∈ (["true", "yes", "y", "1"] : List String) then some true
    else if n ∈ (["false", "no", "n", "0"] : List String) then some false
    else none
  | _ => none

/-- Embeds `isRecord` (aoryx-client.ts:216): a non-null non-array object,
returning its fields. -/
def isRecordJ : Json → Option (List (String × Json))
  | .obj fields => some fields
  | _ => none

/-- Embeds `normalizeArray` (aoryx-client.ts:219): falsy becomes `[]`, arrays
pass through, anything else is wrapped in a singleton. -/
def normalizeArrayF (v : JsVal) : List Json :=
  if jsTruthy v then
    match v with
    | some (.arr items) => items
    | some j => [j]
    | none => []
  else []

/-- Result shape of `extractMoney`. -/
structure Money where
  amount : Option ℚ
  currency : Option String
deriving DecidableEq, Repr

/-- Embeds `extractMoney` (aoryx-client.ts:238). -/
def extractMoney : JsVal → Money
  | some (.num q) => ⟨some q, none⟩
  | some (.str s) => ⟨jsParseFloat s, none⟩
  | some (.obj fields) =>
    ⟨toNumber
        (jsCoalesce (objGet fields "Amount")
          (jsCoalesce (objGet fields "TotalAmount")
            (jsCoalesce (objGet fields "Value")
              (jsCoalesce (objGet fields "Price")
                (jsCoalesce (objGet fields "Net") (objGet fields "NetAmount")))))),
      toStringValue
        (jsCoalesce (objGet fields "Currency")
          (jsCoalesce (objGet fields "CurrencyCode") (objGet fields "Curr")))⟩
  | _ => ⟨none, none⟩

mutual

/-- Embeds `extractCancellationPolicy` (aoryx-client.ts:252) on a defined,
non-undefined JSON value: strings are trimmed with empty mapped to `null`,
arrays are recursively extracted, joined by spaces after a truthiness filter
(`filter(Boolean)`), records try the `Text`/`Policy`/`Description`/`Remark`
keys. -/
def extractCancellationPolicyJ : Json → Option String
  | .str s => if jsTrim s = "" then none else some (jsTrim s)
  | .arr items =>
    let parts := ((cancellationParts items).filterMap id).filter fun s => s ≠ ""
    if parts = [] then none else some (String.intercalate " " parts)
  | .obj fields =>
    toStringValue
      (jsCoalesce (objGet fields "Text")
        (jsCoalesce (objGet fields "Policy")
          (jsCoalesce (objGet fields "Description") (objGet fields "Remark"))))
  | _ => none

/-- `value.map((item) => extractCancellationPolicy(item))` over an array's
items. -/
def cancellationParts : List Json → List (Option String)
  | [] => []
  | j :: rest => extractCancellationPolicyJ j :: cancellationParts rest

end

/-- Embeds `extractCancellationPolicy` on a JS value. -/
def extractCancellationPolicy : JsVal → Option String
  | none => none
  | some j => extractCancellationPolicyJ j

/-- Whether `pat` begins the list `s`. -/
def leadsWith : List Char → List Char → Bool
  | [], _ => true
  | _ :: _, [] => false
  | p :: ps, c :: cs => p == c && leadsWith ps cs

/-- Whether `pat` occurs contiguously inside `s` (JS `String.includes`). -/
def charsContain (s pat : List Char) : Bool :=
  match s with
  | [] => leadsWith pat []
  | _ :: rest => leadsWith pat s || charsContain rest pat

/-- JS `a.includes(b)` on strings. -/
def strIncludes (s pat : String) : Bool :=
  charsContain s.toList pat.toList

/-- Embeds `hasRoomSignature` (aoryx-client.ts:271). -/
def hasRoomSignature (fields : List (String × Json)) : Bool :=
  fields.any fun p =>
    let normalized := strToLower p.1
    strIncludes normalized "room" || strIncludes normalized "rate" ||
      strIncludes normalized "board" || strIncludes normalized "meal" ||
      strIncludes normalized "refundable"

mutual

/-- The candidate arrays pushed by the `visit` closure of `findRoomCandidates`
(aoryx-client.ts:284), in visit order: for each array node whose record
elements are nonempty and include a room signature, the record elements; the
visit then recurses into every array element and every object value. -/
def collectCandidates : Json → List (List (List (String × Json)))
  | .arr items =>
    let records := items.filterMap isRecordJ
    (if records.length > 0 ∧ records.any hasRoomSignature then [records] else []) ++
      collectList items
  | .obj fields => collectFields fields
  | _ => []

/-- `node.forEach(visit)` over an array's elements. -/
def collectList : List Json → List (List (List (String × Json)))
  | [] => []
  | j :: rest => collectCandidates j ++ collectList rest

/-- `Object.values(node).forEach(visit)` over an object's fields. -/
def collectFields : List (String × Json) → List (List (List (String × Json)))
  | [] => []
  | f :: rest => collectCandidates f.2 ++ collectFields rest

end

/-- Embeds `findRoomCandidates` (aoryx-client.ts:284): empty when nothing was
collected, else the collected candidate arrays sorted by descending length,
first taken. -/
def findRoomCandidates (v : Json) : List (List (String × Json)) :=
  let candidates := collectCandidates v
  if candidates.length = 0 then []
  else
    match candidates.mergeSort (fun a b => decide (b.length ≤ a.length)) with
    | [] => []
    | c :: _ => c

/-- The internal room-option shape (`types/aoryx.ts`, `AoryxRoomOption`). -/
structure AoryxRoomOption where
  id : String
  name : Option String
  boardType : Option String
  refundable : Option Bool
  currency : Option String
  totalPrice : Option ℚ
  availableRooms : Option ℤ
  cancellationPolicy : Option String
deriving DecidableEq, Repr

/-- The price-candidate loop of `normalizeRoomOptions` (aoryx-client.ts:350):
first candidate with a non-null extracted amount wins, taking its currency. -/
def firstMoney : List JsVal → Money
  | [] => ⟨none, none⟩
  | c :: rest =>
    let m := extractMoney c
    match m.amount with
    | some a => ⟨some a, m.currency⟩
    | none => firstMoney rest

/-- The id source of a room option (aoryx-client.ts:322):
`room.RoomCode ?? room.RateKey ?? room.RoomIndex ?? room.Id`. -/
def idCandidate (room : List (String × Json)) : JsVal :=
  jsCoalesce (objGet room "RoomCode")
    (jsCoalesce (objGet room "RateKey")
      (jsCoalesce (objGet room "RoomIndex") (objGet room "Id")))

/-- The body of the `resolvedRoomItems.map` callback of `normalizeRoomOptions`
(aoryx-client.ts:321), for the room record at 0-based position `index`. -/
def roomOptionOf (room : List (String × Json)) (index : Nat) : AoryxRoomOption :=
  let money := firstMoney
    [objGet room "TotalPrice", objGet room "TotalAmount", objGet room "RoomRate",
      objGet room "NetRate", objGet room "Price", objGet room "NetPrice",
      objGet room "Amount"]
  let refundableValue := toBoolean (jsCoalesce (objGet room "Refundable") (objGet room "IsRefundable"))
  let nonRefundableValue := toBoolean (objGet room "NonRefundable")
  { id := (toStringValue (idCandidate room)).getD ("room-" ++ toString (index + 1)),
    name := toStringValue
      (jsCoalesce (objGet room "RoomName")
        (jsCoalesce (objGet room "RoomType")
          (jsCoalesce (objGet room "Name") (objGet room "Room")))),
    boardType := toStringValue
      (jsCoalesce (objGet room "BoardType")
        (jsCoalesce (objGet room "MealType")
          (jsCoalesce (objGet room "MealPlan")
            (jsCoalesce (objGet room "Meal") (objGet room "Board"))))),
    refundable :=
      match refundableValue with
      | some b => some b
      | none =>
        match nonRefundableValue with
        | some b => some (!b)
        | none => none,
    currency :=
      match money.currency with
      | some c => some c
      | none => toStringValue
          (jsCoalesce (objGet room "Currency")
            (jsCoalesce (objGet room "CurrencyCode") (objGet room "Curr"))),
    totalPrice := money.amount,
    availableRooms := toInteger
      (jsCoalesce (objGet room "AvailableRooms")
        (jsCoalesce (objGet room "RoomAvailable") (objGet room "Availability"))),
    cancellationPolicy := extractCancellationPolicy
      (jsCoalesce (objGet room "CancellationPolicy")
        (jsCoalesce (objGet room "CancelPolicy") (objGet room "CancellationText"))) }

/-- The `sources` list of `normalizeRoomOptions` (aoryx-client.ts:308), for a
non-null response value. -/
def sourcesOf (response : Json) : List JsVal :=
  [jsGetOpt (jsGetJ response "RoomDetails") "RoomDetail",
    jsGetOpt (jsGetJ response "HotelRooms") "HotelRoom",
    match jsGetJ response "Rooms" with
    | some (.obj fields) => objGet fields "Room"
    | v => v]

/-- The `roomItems` reduction of `normalizeRoomOptions` (aoryx-client.ts:314):
the first source whose normalized array contains records. -/
def roomItemsOf (response : Json) : List (List (String × Json)) :=
  (sourcesOf response).foldl
    (fun acc source =>
      if acc.length > 0 then acc
      else
        let candidates := (normalizeArrayF source).filterMap isRecordJ
        if candidates.length > 0 then candidates else acc)
    []

/-- The `resolvedRoomItems` of `normalizeRoomOptions` (aoryx-client.ts:319). -/
def resolvedRoomItems (response : Json) : List (List (String × Json)) :=
  let roomItems := roomItemsOf response
  if roomItems.length > 0 then roomItems else findRoomCandidates response

/-- Embeds the body of `normalizeRoomOptions` (aoryx-client.ts:307) on a
non-null response. -/
def normalizeRoomOptionsCore (response : Json) : List AoryxRoomOption :=
  (resolvedRoomItems response).enum.map fun p => roomOptionOf p.2 p.1

/-- Embeds `normalizeRoomOptions` on an arbitrary parsed response: accessing
`response.RoomDetails` on JSON `null` throws a `TypeError` in JS, modelled as
the `Except` error case. -/
def normalizeRoomOptions (response : Json) : Except Unit (List AoryxRoomOption) :=
  match response with
  | .null => .error ()
  | _ => .ok (normalizeRoomOptionsCore response)

/-- The internal hotel-summary shape (`types/aoryx.ts`, `AoryxHotelSummary`). -/
structure AoryxHotelSummary where
  code : Option String
  name : Option String
  minPrice : Option ℚ
  currency : Option String
  rating : Option ℚ
  address : Option String
  city : Option String
  imageUrl : Option String
  latitude : Option ℚ
  longitude : Option ℚ
deriving DecidableEq, Repr

/-- The body of `normalizeSearchHotel` (aoryx-client.ts:198) on a non-nullish
hotel value, where every property access is defined. -/
def hotelSummaryOf (h : Json) (currency : Option String) : AoryxHotelSummary :=
  let info := jsGetJ h "HotelInfo"
  { code := toStringValue (jsGetJ h "Code"),
    name := (toStringValue (jsGetOpt info "Name")).orElse
      (fun _ => toStringValue (jsGetJ h "Name")),
    minPrice := toNumber (jsGetJ h "MinPrice"),
    currency := currency,
    rating := toNumber (jsGetOpt info "StarRating"),
    address := toStringValue (jsGetOpt info "Add1"),
    city := toStringValue (jsGetOpt info "City"),
    imageUrl := toStringValue (jsGetOpt info "Image"),
    latitude := toNumber (jsGetOpt info "Lat"),
    longitude := toNumber (jsGetOpt info "Lon") }

/-- Embeds `normalizeSearchHotel` (aoryx-client.ts:198) on an arbitrary run-time
hotel value: `hotel.Code` throws a `TypeError` when `hotel` is nullish. -/
def normalizeSearchHotel (hotel : JsVal) (currency : Option String) :
    Except Unit AoryxHotelSummary :=
  match hotel with
  | none => .error ()
  | some .null => .error ()
  | some h => .ok (hotelSummaryOf h currency)

/-- Errors thrown by the pure response-processing half of the service functions:
an `AoryxServiceError` with a vendor business code, the `MISSING_SESSION_ID`
`AoryxServiceError`, or a JS `TypeError` from a nullish property access. -/
inductive AoryxErr where
  | vendor (code : String)
  | missingSessionId
  | typeError
deriving DecidableEq, Repr

/-- The destination shape inside `AoryxSearchResult`. -/
structure AoryxDestination where
  code : Option String
  name : Option String
deriving DecidableEq, Repr

/-- The internal search-result shape (`types/aoryx.ts`, `AoryxSearchResult`). -/
structure AoryxSearchResult where
  sessionId : String
  currency : Option String
  propertyCount : Option ℤ
  responseTime : Option String
  destination : Option AoryxDestination
  hotels : List AoryxHotelSummary
deriving DecidableEq, Repr

/-- Embeds `extractSessionId` (aoryx-client.ts:438). -/
def extractSessionId (generalInfo : JsVal) : Except AoryxErr String :=
  match toStringValue (jsGetOpt generalInfo "SessionId") with
  | some s => .ok s
  | none => .error .missingSessionId

/-- The `currency` extracted by `search` (aoryx-client.ts:484):
`toStringValue(response.Monetary?.Currency?.Code)`. -/
def searchCurrency (response : Json) : Option String :=
  toStringValue (jsGetOpt (jsGetOpt (jsGetJ response "Monetary") "Currency") "Code")

/-- The `hotelsArray` of `search` (aoryx-client.ts:485): `Hotels?.Hotel ?? []`,
wrapped in a singleton when truthy and not an array. -/
def searchHotelsArray (response : Json) : List JsVal :=
  match jsCoalesce (jsGetOpt (jsGetJ response "Hotels") "Hotel") (some (.arr [])) with
  | some (.arr items) => items.map some
  | v => if jsTruthy v then [v] else []

/-- The result record assembled by `search` (aoryx-client.ts:489-501) from the
session id and normalized hotels. -/
def searchAssemble (response : Json) (sessionId : String)
    (hotels : List AoryxHotelSummary) : AoryxSearchResult :=
  let audit := jsGetJ response "Audit"
  { sessionId := sessionId,
    currency := searchCurrency response,
    propertyCount := toInteger (jsGetOpt audit "PropertyCount"),
    responseTime := toStringValue (jsGetOpt audit "ResponseTime"),
    destination :=
      if jsTruthy (jsGetOpt audit "Destination") then
        some
          { code := toStringValue (jsGetOpt (jsGetOpt audit "Destination") "Code"),
            name := toStringValue (jsGetOpt (jsGetOpt audit "Destination") "Text") }
      else none,
    hotels := hotels }

/-- The hotel mapping `hotelsArray.map((h) => normalizeSearchHotel(h, currency))`
of `search` (aoryx-client.ts:487): a JS `map` whose callback throws aborts at
the first throwing element. -/
def normalizeHotels (cur : Option String) :
    List JsVal → Except AoryxErr (List AoryxHotelSummary)
  | [] => .ok []
  | h :: rest =>
    match normalizeSearchHotel h cur with
    | .error _ => .error .typeError
    | .ok s =>
      match normalizeHotels cur rest with
      | .error e => .error e
      | .ok ss => .ok (s :: ss)

/-- The `search` response processing after the `response.IsSuccess` access is
known not to throw: the vendor-error check, session-id extraction (which
throws first), hotel normalization (which can throw on a null element), and
result assembly. -/
def searchProcess (response : Json) : Except AoryxErr AoryxSearchResult :=
  if !jsTruthy (jsGetJ response "IsSuccess") && jsTruthy (jsGetJ response "ExceptionMessage") then
    .error (.vendor "SEARCH_ERROR")
  else
    match extractSessionId (jsCoalesce (jsGetJ response "GeneralInfo") none) with
    | .error e => .error e
    | .ok sessionId =>
      match normalizeHotels (searchCurrency response) (searchHotelsArray response) with
      | .error e => .error e
      | .ok hotels => .ok (searchAssemble response sessionId hotels)

/-- Embeds the response-processing half of `search` (aoryx-client.ts:474-501)
on the parsed, pascalized response value; reading `response.IsSuccess` on JSON
`null` throws a `TypeError`. -/
def searchFromResponse (response : Json) : Except AoryxErr AoryxSearchResult :=
  match response with
  | .null => .error .typeError
  | _ => searchProcess response

/-- JS strict equality `v === false`. -/
def isFalseVal : JsVal → Bool
  | some (.bool false) => true
  | _ => false

/-- Embeds the vendor-error check of `roomDetails` (aoryx-client.ts:527) and the
subsequent normalization: raises the vendor code exactly when
`response.IsSuccess === false`; accessing `IsSuccess` on JSON `null` throws. -/
def roomDetailsFromResponse (response : Json) : Except AoryxErr (List AoryxRoomOption) :=
  match response with
  | .null => .error .typeError
  | _ =>
    if isFalseVal (jsGetJ response "IsSuccess") then
      .error (.vendor "ROOM_DETAILS_ERROR")
    else .ok (normalizeRoomOptionsCore response)

/-- Embeds the vendor-error check of `hotelInfo` (aoryx-client.ts:598):
`!isSuccess` raises `HOTEL_INFO_ERROR`; `none` means no error raised there. -/
def hotelInfoVendorCheck (response : Json) : Option AoryxErr :=
  match response with
  | .null => some .typeError
  | _ =>
    if !jsTruthy (jsGetJ response "IsSuccess") then some (.vendor "HOTEL_INFO_ERROR")
    else none

/-- Embeds the vendor-error check of `hotelsInfoByDestinationId`
(aoryx-client.ts:558): `!isSuccess` raises `HOTELS_INFO_ERROR`. -/
def hotelsInfoVendorCheck (response : Json) : Option AoryxErr :=
  match response with
  | .null => some .typeError
  | _ =>
    if !jsTruthy (jsGetJ response "IsSuccess") then some (.vendor "HOTELS_INFO_ERROR")
    else none

/-- Sort direction of the results-page comparators (results-client.tsx). -/
inductive SortDir where
  | asc
  | desc
deriving DecidableEq, Repr

/-- Embeds `compareNullable` (results-client.tsx:249): entries lacking the
value sort after entries that have it; numeric comparison otherwise. -/
def compareNullable (a b : Option ℚ) (direction : SortDir) : ℚ :=
  match a, b with
  | none, none => 0
  | none, some _ => 1
  | some _, none => -1
  | some x, some y =>
    match direction with
    | .asc => x - y
    | .desc => y - x

/-- Embeds `comparePrice` (results-client.tsx:260). -/
def comparePrice (a b : AoryxHotelSummary) (direction : SortDir) : ℚ :=
  let priceDelta := compareNullable a.minPrice b.minPrice direction
  if priceDelta ≠ 0 then priceDelta else compareNullable a.rating b.rating .desc

/-- Embeds `compareRating` (results-client.tsx:265). -/
def compareRating (a b : AoryxHotelSummary) (direction : SortDir) : ℚ :=
  let ratingDelta := compareNullable a.rating b.rating direction
  if ratingDelta ≠ 0 then ratingDelta else compareNullable a.minPrice b.minPrice .asc

/-- The four sort modes of the results page (`sortBy` switch,
results-client.tsx:270; the default case is rating descending). -/
inductive SortBy where
  | priceAsc
  | priceDesc
  | ratingAsc
  | ratingDesc
deriving DecidableEq, Repr

/-- The comparator selected by the `sortBy` switch. -/
def hotelCmp : SortBy → AoryxHotelSummary → AoryxHotelSummary → ℚ
  | .priceAsc, a, b => comparePrice a b .asc
  | .priceDesc, a, b => comparePrice a b .desc
  | .ratingAsc, a, b => compareRating a b .asc
  | .ratingDesc, a, b => compareRating a b .desc

/-- `filteredHotels.sort(comparator)`: JS `Array.prototype.sort` is a stable
comparator sort, modelled by `mergeSort` on "compares at most zero". -/
def sortedHotels (sb : SortBy) (hs : List AoryxHotelSummary) : List AoryxHotelSummary :=
  hs.mergeSort fun a b => decide (hotelCmp sb a b ≤ 0)

/-- The field each sort mode orders by primarily. -/
def sortField : SortBy → AoryxHotelSummary → Option ℚ
  | .priceAsc, h => h.minPrice
  | .priceDesc, h => h.minPrice
  | .ratingAsc, h => h.rating
  | .ratingDesc, h => h.rating

/-- Embeds `parseString` of the favorites route: trimmed nonempty strings,
else `null`. -/
def parseString (value : JsVal) : Option String :=
  match value with
  | some (.str s) => if (jsTrim s).length > 0 then some (jsTrim s) else none
  | _ => none

/-- Embeds `parseNumber` of the favorites route: finite numbers, or nonblank
strings through `Number(...)` guarded by `Number.isFinite`. -/
def parseNumber (value : JsVal) : Option ℚ :=
  match value with
  | some (.num q) => some q
  | some (.str s) => if (jsTrim s).length > 0 then jsNumberOfString s else none
  | _ => none

/-- Embeds `clampLimit` of the favorites route:
`Math.min(Math.max(value, min), max)`. -/
def clampLimit (value mn mx : ℚ) : ℚ :=
  min (max value mn) mx

/-- JS `Number(limitParam)` for `searchParams.get("limit")`, which is a string
or `null`; `Number(null)` is `0`. -/
def jsNumberOfParam : Option String → Option ℚ
  | none => some 0
  | some s => jsNumberOfString s

/-- The limit computation of the favorites `GET` handler:
`clampLimit(Number.isFinite(rawLimit) ? rawLimit : 24, 1, 48)`. -/
def favLimitOf (limitParam : Option String) : ℚ :=
  match jsNumberOfParam limitParam with
  | some rawLimit => clampLimit rawLimit 1 48
  | none => clampLimit 24 1 48

/-- A document of the `user_favorites` collection; `docId` models the Mongo
`_id`, unique across documents of a collection. -/
structure FavDoc where
  docId : Nat
  userIdString : String
  hotelCode : String
  name : Option String
  city : Option String
  address : Option String
  imageUrl : Option String
  rating : Option ℚ
  source : String
  savedAt : Nat
  createdAt : Nat
  updatedAt : Nat
deriving DecidableEq, Repr

/-- The `user_favorites` collection state, in insertion order. -/
abbrev FavStore : Type := List FavDoc

/-- The `{ userIdString, hotelCode }` filter used by the favorites route. -/
def favKeyMatches (u hc : String) (d : FavDoc) : Bool :=
  d.userIdString == u && d.hotelCode == hc

/-- Mongo `findOne({ userIdString, hotelCode })`, modelled as the first match. -/
def findOneFav (s : FavStore) (u hc : String) : Option FavDoc :=
  s.find? (favKeyMatches u hc)

/-- Mongo `deleteOne({ _id })`, removing the document with that id. -/
def deleteOneById (s : FavStore) (i : Nat) : FavStore :=
  s.eraseP fun d => d.docId == i

/-- The payload document built by the favorites `POST` handler from the parsed
request body, with `now` the request timestamp and `freshId` the `_id` that an
insert would allocate. -/
def favPayloadDoc (u hc : String) (body : JsVal) (now freshId : Nat) : FavDoc :=
  { docId := freshId,
    userIdString := u,
    hotelCode := hc,
    name := parseString (jsGetOpt body "name"),
    city := parseString (jsGetOpt body "city"),
    address := parseString (jsGetOpt body "address"),
    imageUrl := parseString (jsGetOpt body "imageUrl"),
    rating := parseNumber (jsGetOpt body "rating"),
    source := (parseString (jsGetOpt body "source")).getD "aoryx",
    savedAt := now,
    createdAt := now,
    updatedAt := now }

/-- Mongo `updateOne(filter, { $set: payload, $setOnInsert: { createdAt } },
{ upsert: true })`: replaces the payload fields of the first filter match,
keeping its `_id` and `createdAt`, or inserts the document when none match. -/
def upsertFav (s : FavStore) (u hc : String) (d : FavDoc) : FavStore :=
  match findOneFav s u hc with
  | some e =>
    s.map fun x =>
      if x.docId == e.docId then { d with docId := x.docId, createdAt := x.createdAt } else x
  | none => s ++ [d]

/-- Embeds the favorites `POST` handler after authentication and body parsing
(part_000:92-122): toggles the `(userIdString, hotelCode)` document and
returns the JSON `isFavorite` value. -/
def postFav (s : FavStore) (u hc : String) (body : JsVal) (now freshId : Nat) :
    FavStore × Bool :=
  match findOneFav s u hc with
  | some existing => (deleteOneById s existing.docId, false)
  | none => (upsertFav s u hc (favPayloadDoc u hc body now freshId), true)

/-- Presence of a `(userIdString, hotelCode)` document, as reported by the
favorites `GET ?hotelCode=` handler (`Boolean(doc)`). -/
def isFav (s : FavStore) (u hc : String) : Bool :=
  (findOneFav s u hc).isSome

/-- Whether a JS value is a string. -/
def isStrVal : JsVal → Bool
  | some (.str _) => true
  | _ => false

/-- Whether a JS value is a number. -/
def isNumVal : JsVal → Bool
  | some (.num _) => true
  | _ => false

/-- Whether a JS value is a boolean. -/
def isBoolVal : JsVal → Bool
  | some (.bool _) => true
  | _ => false

/-- Whether a JS value is an array. -/
def isArrVal : JsVal → Bool
  | some (.arr _) => true
  | _ => false

/-- Whether a JS value is a record (non-null, non-array object). -/
def isRecordVal : JsVal → Bool
  | some (.obj _) => true
  | _ => false

/-- The amount keys tried by `extractMoney`, in source order. -/
def moneyKeys : List String :=
  ["Amount", "TotalAmount", "Value", "Price", "Net", "NetAmount"]

/-- The value of a nullish-coalescing chain `fields.k₁ ?? … ?? fields.kₙ`,
written over the key list; on `moneyKeys` it is definitionally the amount
chain of `extractMoney`. -/
def firstPresentVal (fields : List (String × Json)) : List String → JsVal
  | [] => none
  | [k] => objGet fields k
  | k :: ks => jsCoalesce (objGet fields k) (firstPresentVal fields ks)

/-- Direction-adjusted value for the sort-key embedding of the comparators. -/
def dirVal : SortDir → ℚ → ℚ
  | .asc, x => x
  | .desc, x => -x

/-- Sort key of one nullable field: missing values sort after present ones,
present ones by direction-adjusted value.  `compareNullable a b dir ≤ 0` holds
exactly when `optKey a dir ≤ optKey b dir` lexicographically. -/
def optKey (v : Option ℚ) (dir : SortDir) : Lex (ℚ × ℚ) :=
  match v with
  | none => toLex (1, 0)
  | some x => toLex (0, dirVal dir x)

/-- Lexicographic sort key of a hotel under each sort mode: primary field
first, then the tiebreaker the comparator uses. -/
def hotelKey : SortBy → AoryxHotelSummary → Lex (Lex (ℚ × ℚ) × Lex (ℚ × ℚ))
  | .priceAsc, h => toLex (optKey h.minPrice .asc, optKey h.rating .desc)
  | .priceDesc, h => toLex (optKey h.minPrice .desc, optKey h.rating .desc)
  | .ratingAsc, h => toLex (optKey h.rating .asc, optKey h.minPrice .asc)
  | .ratingDesc, h => toLex (optKey h.rating .desc, optKey h.minPrice .asc)

/-- The room-option id as the specification words it — "the first usable of
the room's RoomCode, RateKey, RoomIndex, or Id fields" — read as the first of
those fields on which `toStringValue` yields a string.  Compared against the
source's `idCandidate`-based selection, which coalesces on nullishness before
converting. -/
def specFirstUsableId (room : List (String × Json)) : Option String :=
  (([objGet room "RoomCode", objGet room "RateKey", objGet room "RoomIndex",
      objGet room "Id"].map toStringValue).filterMap id).head?

/-! ## Basic lemmas -/

theorem mk_ne_empty_of_ne_nil (l : List Char) (h : l ≠ []) : (⟨l⟩ : String) ≠ "" := by
  intro he
  exact h (congrArg String.data he)

theorem natToChars_ne_nil (n : Nat) : natToChars n ≠ [] := by
  simp only [natToChars, natDigitsAux]
  split <;> simp

theorem numToChars_ne_nil (q : ℚ) : numToChars q ≠ [] := by
  simp only [numToChars]
  intro h
  rw [List.append_eq_nil, List.append_eq_nil] at h
  exact natToChars_ne_nil _ h.1.2

theorem numToString_ne_empty (q : ℚ) : numToString q ≠ "" :=
  mk_ne_empty_of_ne_nil _ (numToChars_ne_nil q)

theorem toStringValue_some_ne_empty (v : JsVal) (s : String)
    (h : toStringValue v = some s) : s ≠ "" := by
  match v with
  | none => simp [toStringValue] at h
  | some .null => simp [toStringValue] at h
  | some (.bool b) => simp [toStringValue] at h
  | some (.arr items) => simp [toStringValue] at h
  | some (.obj fields) => simp [toStringValue] at h
  | some (.num q) =>
    simp only [toStringValue, Option.some.injEq] at h
    exact h ▸ numToString_ne_empty q
  | some (.str s0) =>
    simp only [toStringValue] at h
    split at h
    · rename_i hl
      cases h
      intro he
      rw [he] at hl
      simp at hl
    · cases h

theorem jsCoalesce_of_nullish (a b : JsVal) (h : jsNullish a = true) :
    jsCoalesce a b = b := by
  simp [jsCoalesce, h]

theorem jsCoalesce_of_not_nullish (a b : JsVal) (h : jsNullish a = false) :
    jsCoalesce a b = a := by
  simp [jsCoalesce, h]

theorem nullish_cases (v : JsVal) (h : jsNullish v = true) : v = none ∨ v = some .null := by
  match v with
  | none => exact Or.inl rfl
  | some .null => exact Or.inr rfl
  | some (.bool b) => simp [jsNullish] at h
  | some (.num q) => simp [jsNullish] at h
  | some (.str s) => simp [jsNullish] at h
  | some (.arr l) => simp [jsNullish] at h
  | some (.obj f) => simp [jsNullish] at h

theorem toNumber_of_nullish (v : JsVal) (h : jsNullish v = true) : toNumber v = none := by
  rcases nullish_cases v h with h1 | h1 <;> subst h1 <;> rfl

/-! ## C9: the favorites GET limit -/

/-- C9 (amended): the favorites `GET` limit is always clamped into `[1, 48]`;
a `limit` string that `Number(...)` cannot parse (`NaN`) defaults to 24; but a
missing `limit` parameter coerces to `Number(null) = 0` and clamps to 1, not
to the default 24; a parsed numeric limit is clamped into `[1, 48]`. -/
theorem favLimit_clamped_amended :
    (∀ p : Option String, 1 ≤ favLimitOf p ∧ favLimitOf p ≤ 48) ∧
    favLimitOf none = 1 ∧
    (∀ s : String, jsNumberOfString s = none → favLimitOf (some s) = 24) ∧
    (∀ (s : String) (q : ℚ), jsNumberOfString s = some q →
      favLimitOf (some s) = clampLimit q 1 48) := by
  have hb : ∀ v : ℚ, 1 ≤ clampLimit v 1 48 ∧ clampLimit v 1 48 ≤ 48 := by
    intro v
    constructor
    · exact le_min (le_max_right v 1) (by norm_num)
    · exact min_le_right _ _
  refine ⟨?_, ?_, ?_, ?_⟩
  · intro p
    unfold favLimitOf
    cases jsNumberOfParam p <;> exact hb _
  · show clampLimit 0 1 48 = 1
    unfold clampLimit
    norm_num
  · intro s h
    show (match jsNumberOfString s with
      | some rawLimit => clampLimit rawLimit 1 48
      | none => clampLimit 24 1 48 : ℚ) = 24
    rw [h]
    show clampLimit 24 1 48 = 24
    unfold clampLimit
    norm_num
  · intro s q h
    show (match jsNumberOfString s with
      | some rawLimit => clampLimit rawLimit 1 48
      | none => clampLimit 24 1 48 : ℚ) = clampLimit q 1 48
    rw [h]

/-- C9 counterexample: a request with no `limit` parameter asks the collection
for 1 document, not the claimed default of 24 (`Number(null)` is `0`, which is
finite, so the 24 default is skipped and `0` clamps to `1`). -/
theorem favLimit_missing_param_cex : favLimitOf none = 1 ∧ (1 : ℚ) ≠ 24 := by
  constructor
  · show clampLimit 0 1 48 = 1
    unfold clampLimit
    norm_num
  · norm_num

/-- C9 witness: a non-numeric limit defaults to 24 and an in-range numeric
limit is kept. -/
theorem favLimit_clamped_witness :
    favLimitOf (some "abc") = 24 ∧ favLimitOf (some "50") = clampLimit 50 1 48 := by
  have h50 : jsNumberOfString "50" = some 50 := by
    have h : jsNumberOfString "50" = some (natOfDigits [5, 0] * (10 : ℚ) ^ (0 : ℤ)) := rfl
    rw [h]
    simp only [natOfDigits, List.foldl, zpow_zero, Option.some.injEq]
    norm_num
  exact ⟨favLimit_clamped_amended.2.2.1 "abc" (by decide),
    favLimit_clamped_amended.2.2.2 "50" 50 h50⟩

/-! ## C2: extractMoney -/

theorem extractMoney_obj_amount_eq (fields : List (String × Json)) :
    (extractMoney (some (.obj fields))).amount =
      toNumber (firstPresentVal fields moneyKeys) := rfl

theorem firstPresentVal_all_nullish (fields : List (String × Json)) :
    ∀ ks : List String, (∀ k ∈ ks, jsNullish (objGet fields k) = true) →
      jsNullish (firstPresentVal fields ks) = true := by
  intro ks
  induction ks with
  | nil => intro _; rfl
  | cons k ks ih =>
    cases ks with
    | nil =>
      intro h
      exact h k (by simp)
    | cons k2 ks2 =>
      intro h
      show jsNullish (jsCoalesce (objGet fields k) (firstPresentVal fields (k2 :: ks2))) = true
      rw [jsCoalesce_of_nullish _ _ (h k (by simp))]
      exact ih fun k' hk' => h k' (by simp [hk'])

theorem firstPresentVal_first (fields : List (String × Json)) :
    ∀ (ks1 : List String) (k : String) (ks2 : List String),
      (∀ k' ∈ ks1, jsNullish (objGet fields k') = true) →
      jsNullish (objGet fields k) = false →
      firstPresentVal fields (ks1 ++ k :: ks2) = objGet fields k := by
  intro ks1
  induction ks1 with
  | nil =>
    intro k ks2 _ hk
    cases ks2 with
    | nil => rfl
    | cons k2 ks2 =>
      show jsCoalesce (objGet fields k) (firstPresentVal fields (k2 :: ks2)) = objGet fields k
      exact jsCoalesce_of_not_nullish _ _ hk
  | cons k0 ks1 ih =>
    intro k ks2 h1 hk
    have hne : ks1 ++ k :: ks2 ≠ [] := by
      intro he
      exact absurd he.symm (List.cons_ne_nil k ks2 ∘ fun h => (List.append_eq_nil.mp h.symm).2)
    cases hl : ks1 ++ k :: ks2 with
    | nil => exact absurd hl hne
    | cons x xs =>
      show firstPresentVal fields (k0 :: (ks1 ++ k :: ks2)) = objGet fields k
      rw [hl]
      show jsCoalesce (objGet fields k0) (firstPresentVal fields (x :: xs)) = objGet fields k
      rw [jsCoalesce_of_nullish _ _ (h1 k0 (by simp)), ← hl]
      exact ih k ks2 (fun k' hk' => h1 k' (by simp [hk'])) hk

/-- C2 (amended): `extractMoney` on a number or numeric string yields that
number; on a record it takes the FIRST of the keys Amount, TotalAmount, Value,
Price, Net, NetAmount whose value is non-nullish — skipping only nullish
values, so an earlier non-numeric value (e.g. the string "x") makes the amount
null even when a later key carries a number — converting it with `toNumber`;
when all six keys are nullish or absent the amount is null, and a non-record
non-numeric value yields null. -/
theorem extractMoney_first_present_amended :
    (∀ q : ℚ, extractMoney (some (.num q)) = ⟨some q, none⟩) ∧
    (∀ s : String, (extractMoney (some (.str s))).amount = jsParseFloat s) ∧
    (∀ fields : List (String × Json),
      (∀ k ∈ moneyKeys, jsNullish (objGet fields k) = true) →
      (extractMoney (some (.obj fields))).amount = none) ∧
    (∀ (fields : List (String × Json)) (ks1 : List String) (k : String) (ks2 : List String),
      moneyKeys = ks1 ++ k :: ks2 →
      (∀ k' ∈ ks1, jsNullish (objGet fields k') = true) →
      jsNullish (objGet fields k) = false →
      (extractMoney (some (.obj fields))).amount = toNumber (objGet fields k)) ∧
    (∀ v : JsVal, isNumVal v = false → isStrVal v = false → isRecordVal v = false →
      extractMoney v = ⟨none, none⟩) := by
  refine ⟨fun q => rfl, fun s => rfl, ?_, ?_, ?_⟩
  · intro fields h
    rw [extractMoney_obj_amount_eq]
    exact toNumber_of_nullish _ (firstPresentVal_all_nullish fields moneyKeys h)
  · intro fields ks1 k ks2 hsplit h1 hk
    rw [extractMoney_obj_amount_eq, hsplit, firstPresentVal_first fields ks1 k ks2 h1 hk]
  · intro v hn hs hr
    match v with
    | none => rfl
    | some .null => rfl
    | some (.bool b) => rfl
    | some (.num q) => simp [isNumVal] at hn
    | some (.str s) => simp [isStrVal] at hs
    | some (.arr l) => rfl
    | some (.obj f) => simp [isRecordVal] at hr

/-- C2 counterexample: the record `{Amount: "x", Value: 5}` carries 5 under
`Value`, one of the listed keys, yet `extractMoney` yields a null amount: the
non-nullish string under `Amount` stops the coalescing chain and fails
`toNumber`. -/
theorem extractMoney_key_shadow_cex :
    objGet [("Amount", Json.str "x"), ("Value", Json.num 5)] "Value" = some (Json.num 5) ∧
    (extractMoney (some (Json.obj [("Amount", Json.str "x"), ("Value", Json.num 5)]))).amount
      = none ∧ (none : Option ℚ) ≠ some 5 := by
  refine ⟨rfl, rfl, by simp⟩

/-- C2 witness: a record whose first present money key is `Price` with a
numeric value yields that value. -/
theorem extractMoney_first_present_witness :
    (extractMoney (some (Json.obj [("Price", Json.num 7)]))).amount =
      toNumber (objGet [("Price", Json.num 7)] "Price") :=
  extractMoney_first_present_amended.2.2.2.1 [("Price", Json.num 7)]
    ["Amount", "TotalAmount", "Value"] "Price" ["Net", "NetAmount"] rfl
    (by intro k' hk'; fin_cases hk' <;> rfl) rfl

/-! ## C7: vendor business errors -/

theorem extractSessionId_error_eq (g : JsVal) (e : AoryxErr)
    (h : extractSessionId g = .error e) : e = .missingSessionId := by
  unfold extractSessionId at h
  split at h
  · cases h
  · cases h
    rfl

theorem normalizeHotels_ok_or_typeError (l : List JsVal) (cur : Option String) :
    normalizeHotels cur l = .error .typeError ∨
      ∃ hs, normalizeHotels cur l = .ok hs := by
  induction l with
  | nil => exact Or.inr ⟨[], rfl⟩
  | cons x xs ih =>
    cases hx : normalizeSearchHotel x cur with
    | error e =>
      left
      simp [normalizeHotels, hx]
    | ok y =>
      rcases ih with he | ⟨hs, hok⟩
      · left
        simp [normalizeHotels, hx, he]
      · right
        exact ⟨y :: hs, by simp [normalizeHotels, hx, hok]⟩

theorem searchFromResponse_eq_process (response : Json) (h : response ≠ .null) :
    searchFromResponse response = searchProcess response := by
  cases response
  · exact absurd rfl h
  all_goals rfl

theorem searchProcess_vendor_iff (response : Json) :
    (∃ c, searchProcess response = .error (.vendor c)) ↔
      (!jsTruthy (jsGetJ response "IsSuccess") &&
        jsTruthy (jsGetJ response "ExceptionMessage")) = true := by
  constructor
  · rintro ⟨c, hc⟩
    by_contra hcond
    rw [Bool.not_eq_true] at hcond
    unfold searchProcess at hc
    rw [if_neg (by simp [hcond])] at hc
    cases hs : extractSessionId (jsCoalesce (jsGetJ response "GeneralInfo") none) with
    | error e =>
      rw [hs] at hc
      cases extractSessionId_error_eq _ _ hs
      cases hc
    | ok sid =>
      rw [hs] at hc
      rcases normalizeHotels_ok_or_typeError (searchHotelsArray response)
          (searchCurrency response) with hm | ⟨hotels, hm⟩ <;> rw [hm] at hc <;> cases hc
  · intro hcond
    exact ⟨"SEARCH_ERROR", by unfold searchProcess; rw [if_pos hcond]⟩

/-- C7 (amended): the vendor business-error conditions differ per operation
rather than being a uniform "failure flag or exception message": `search`
raises `SEARCH_ERROR` iff `IsSuccess` is falsy AND `ExceptionMessage` is
truthy (a failure flag without a message is silently ignored); `roomDetails`
raises `ROOM_DETAILS_ERROR` iff `IsSuccess` is strictly the boolean `false`;
`hotelInfo` and `hotelsInfoByDestinationId` raise their codes iff `IsSuccess`
is falsy — including when it is merely absent, with no explicit failure
indication at all. -/
theorem vendor_error_conditions_amended :
    (∀ response : Json,
      (∃ c, searchFromResponse response = .error (.vendor c)) ↔
        (response ≠ .null ∧
          (!jsTruthy (jsGetJ response "IsSuccess") &&
            jsTruthy (jsGetJ response "ExceptionMessage")) = true)) ∧
    (∀ response : Json,
      (∃ c, roomDetailsFromResponse response = .error (.vendor c)) ↔
        (response ≠ .null ∧ isFalseVal (jsGetJ response "IsSuccess") = true)) ∧
    (∀ response : Json,
      (∃ c, hotelInfoVendorCheck response = some (.vendor c)) ↔
        (response ≠ .null ∧ jsTruthy (jsGetJ response "IsSuccess") = false)) ∧
    (∀ response : Json,
      (∃ c, hotelsInfoVendorCheck response = some (.vendor c)) ↔
        (response ≠ .null ∧ jsTruthy (jsGetJ response "IsSuccess") = false)) := by
  refine ⟨?_, ?_, ?_, ?_⟩
  · intro response
    by_cases hnull : response = .null
    · subst hnull
      constructor
      · rintro ⟨c, hc⟩
        cases hc
      · rintro ⟨h, _⟩
        exact absurd rfl h
    · constructor
      · rintro ⟨c, hc⟩
        rw [searchFromResponse_eq_process response hnull] at hc
        exact ⟨hnull, (searchProcess_vendor_iff response).mp ⟨c, hc⟩⟩
      · rintro ⟨_, hcond⟩
        rcases (searchProcess_vendor_iff response).mpr hcond with ⟨c, hc⟩
        exact ⟨c, by rw [searchFromResponse_eq_process response hnull]; exact hc⟩
  · intro response
    cases response
    case null =>
      constructor
      · rintro ⟨c, hc⟩
        cases hc
      · rintro ⟨h, _⟩
        exact absurd rfl h
    all_goals
      constructor
      · rintro ⟨c, hc⟩
        refine ⟨by simp, ?_⟩
        by_contra hcond
        rw [Bool.not_eq_true] at hcond
        unfold roomDetailsFromResponse at hc
        rw [if_neg (by simp [hcond])] at hc
        cases hc
      · rintro ⟨_, hcond⟩
        exact ⟨"ROOM_DETAILS_ERROR", by unfold roomDetailsFromResponse; rw [if_pos hcond]⟩
  · intro response
    cases response
    case null =>
      constructor
      · rintro ⟨c, hc⟩
        cases hc
      · rintro ⟨h, _⟩
        exact absurd rfl h
    all_goals
      constructor
      · rintro ⟨c, hc⟩
        refine ⟨by simp, ?_⟩
        by_contra hcond
        rw [Bool.not_eq_false] at hcond
        unfold hotelInfoVendorCheck at hc
        rw [if_neg (by simp [hcond])] at hc
        cases hc
      · rintro ⟨_, hcond⟩
        exact ⟨"HOTEL_INFO_ERROR",
          by unfold hotelInfoVendorCheck; rw [if_pos (by simp [hcond])]⟩
  · intro response
    cases response
    case null =>
      constructor
      · rintro ⟨c, hc⟩
        cases hc
      · rintro ⟨h, _⟩
        exact absurd rfl h
    all_goals
      constructor
      · rintro ⟨c, hc⟩
        refine ⟨by simp, ?_⟩
        by_contra hcond
        rw [Bool.not_eq_false] at hcond
        unfold hotelsInfoVendorCheck at hc
        rw [if_neg (by simp [hcond])] at hc
        cases hc
      · rintro ⟨_, hcond⟩
        exact ⟨"HOTELS_INFO_ERROR",
          by unfold hotelsInfoVendorCheck; rw [if_pos (by simp [hcond])]⟩

/-- C7 counterexample: a search response carrying the explicit failure flag
`IsSuccess: false` but no exception message raises no vendor-coded error at
all — `search` proceeds and returns a successful result. -/
theorem search_failure_flag_ignored_cex :
    isFalseVal (jsGetJ (Json.obj [("IsSuccess", Json.bool false),
        ("GeneralInfo", Json.obj [("SessionId", Json.str "abc")])]) "IsSuccess") = true ∧
    searchFromResponse (Json.obj [("IsSuccess", Json.bool false),
        ("GeneralInfo", Json.obj [("SessionId", Json.str "abc")])]) =
      .ok ⟨"abc", none, none, none, none, []⟩ :=
  ⟨rfl, rfl⟩

/-! ## C8: session-id extraction -/

theorem toStringValue_of_nullish (v : JsVal) (h : jsNullish v = true) :
    toStringValue v = none := by
  rcases nullish_cases v h with h1 | h1 <;> subst h1 <;> rfl

theorem searchProcess_of_session (response : Json)
    (hcond : (!jsTruthy (jsGetJ response "IsSuccess") &&
      jsTruthy (jsGetJ response "ExceptionMessage")) = false) :
    (toStringValue (jsGetOpt (jsCoalesce (jsGetJ response "GeneralInfo") none) "SessionId")
        = none → searchProcess response = .error .missingSessionId) ∧
    (∀ sid, toStringValue
        (jsGetOpt (jsCoalesce (jsGetJ response "GeneralInfo") none) "SessionId") = some sid →
      ∀ r, searchProcess response = .ok r → r.sessionId = sid) := by
  constructor
  · intro hts
    unfold searchProcess
    rw [if_neg (by simp [hcond])]
    unfold extractSessionId
    rw [hts]
  · intro sid hts r hr
    unfold searchProcess at hr
    rw [if_neg (by simp [hcond])] at hr
    unfold extractSessionId at hr
    rw [hts] at hr
    cases hm : normalizeHotels (searchCurrency response) (searchHotelsArray response) with
    | error e =>
      rw [hm] at hr
      cases hr
    | ok hotels =>
      rw [hm] at hr
      cases hr
      rfl

/-- C8: once the vendor-error branch is not taken, a search response whose
`GeneralInfo.SessionId` is absent, null, empty or whitespace-only makes
`search` throw the `MISSING_SESSION_ID` service error; otherwise (a string
with nonblank trim) any successful result carries exactly the trimmed,
non-empty session id. -/
theorem search_sessionId_spec :
    ∀ response : Json, response ≠ .null →
      (!jsTruthy (jsGetJ response "IsSuccess") &&
        jsTruthy (jsGetJ response "ExceptionMessage")) = false →
      (jsNullish (jsGetOpt (jsCoalesce (jsGetJ response "GeneralInfo") none) "SessionId")
          = true → searchFromResponse response = .error .missingSessionId) ∧
      (∀ s : String,
        jsGetOpt (jsCoalesce (jsGetJ response "GeneralInfo") none) "SessionId"
          = some (.str s) →
        jsTrim s = "" → searchFromResponse response = .error .missingSessionId) ∧
      (∀ (s : String) (r : AoryxSearchResult),
        jsGetOpt (jsCoalesce (jsGetJ response "GeneralInfo") none) "SessionId"
          = some (.str s) →
        searchFromResponse response = .ok r → r.sessionId = jsTrim s ∧ jsTrim s ≠ "") := by
  intro response hnull hcond
  have hP := searchProcess_of_session response hcond
  rw [searchFromResponse_eq_process response hnull]
  refine ⟨?_, ?_, ?_⟩
  · intro hnl
    exact hP.1 (toStringValue_of_nullish _ hnl)
  · intro s hs htrim
    apply hP.1
    rw [hs]
    show (if (jsTrim s).length > 0 then some (jsTrim s) else none) = none
    rw [htrim]
    simp
  · intro s r hs hok
    by_cases hlen : (jsTrim s).length > 0
    · have hts : toStringValue
          (jsGetOpt (jsCoalesce (jsGetJ response "GeneralInfo") none) "SessionId")
          = some (jsTrim s) := by
        rw [hs]
        show (if (jsTrim s).length > 0 then some (jsTrim s) else none) = some (jsTrim s)
        rw [if_pos hlen]
      refine ⟨hP.2 (jsTrim s) hts r hok, ?_⟩
      intro he
      rw [he] at hlen
      simp at hlen
    · have hts : toStringValue
          (jsGetOpt (jsCoalesce (jsGetJ response "GeneralInfo") none) "SessionId")
          = none := by
        rw [hs]
        show (if (jsTrim s).length > 0 then some (jsTrim s) else none) = none
        rw [if_neg hlen]
      rw [hP.1 hts] at hok
      cases hok

/-- C8 witness: a response whose session id is the padded string `"  xyz "`
succeeds with the trimmed, nonempty id `"xyz"`. -/
theorem search_sessionId_witness :
    (⟨"xyz", none, none, none, none, []⟩ : AoryxSearchResult).sessionId = jsTrim "  xyz "
      ∧ jsTrim "  xyz " ≠ "" :=
  (search_sessionId_spec (Json.obj [("GeneralInfo", Json.obj [("SessionId", Json.str "  xyz ")])])
    (by simp) rfl).2.2 "  xyz " ⟨"xyz", none, none, none, none, []⟩ rfl rfl

/-! ## C4: single-object Hotels.Hotel -/

theorem searchProcess_ok_hotels (response : Json) (r : AoryxSearchResult)
    (h : searchProcess response = .ok r) :
    normalizeHotels (searchCurrency response) (searchHotelsArray response) = .ok r.hotels := by
  unfold searchProcess at h
  split at h
  · cases h
  · cases hs : extractSessionId (jsCoalesce (jsGetJ response "GeneralInfo") none) with
    | error e =>
      rw [hs] at h
      cases h
    | ok sid =>
      rw [hs] at h
      cases hm : normalizeHotels (searchCurrency response) (searchHotelsArray response) with
      | error e =>
        rw [hm] at h
        cases h
      | ok hotels =>
        rw [hm] at h
        cases h
        rfl

/-- C4: when `Hotels.Hotel` of a vendor search response is a single non-array,
non-null object, a successful `search` yields exactly the one-element list of
that object's normalization; when `Hotels.Hotel` is absent or null the hotel
list is empty. -/
theorem search_single_hotel_normalization :
    ∀ response : Json, response ≠ .null →
      (∀ (fields : List (String × Json)) (r : AoryxSearchResult),
        jsGetOpt (jsGetJ response "Hotels") "Hotel" = some (.obj fields) →
        searchFromResponse response = .ok r →
        r.hotels = [hotelSummaryOf (.obj fields) (searchCurrency response)]) ∧
      (∀ r : AoryxSearchResult,
        jsNullish (jsGetOpt (jsGetJ response "Hotels") "Hotel") = true →
        searchFromResponse response = .ok r → r.hotels = []) := by
  intro response hnull
  constructor
  · intro fields r hHotel hok
    rw [searchFromResponse_eq_process response hnull] at hok
    have h3 := searchProcess_ok_hotels response r hok
    have h1 : jsNullish (jsGetOpt (jsGetJ response "Hotels") "Hotel") = false := by
      rw [hHotel]
      rfl
    have h2 : searchHotelsArray response = [some (.obj fields)] := by
      unfold searchHotelsArray
      rw [jsCoalesce_of_not_nullish _ _ h1, hHotel]
      rfl
    rw [h2] at h3
    have h4 : (Except.ok [hotelSummaryOf (.obj fields) (searchCurrency response)] :
        Except AoryxErr (List AoryxHotelSummary)) = .ok r.hotels := h3
    injection h4 with h5
    exact h5.symm
  · intro r hNullish hok
    rw [searchFromResponse_eq_process response hnull] at hok
    have h3 := searchProcess_ok_hotels response r hok
    have h2 : searchHotelsArray response = [] := by
      unfold searchHotelsArray
      rw [jsCoalesce_of_nullish _ _ hNullish]
      rfl
    rw [h2] at h3
    have h4 : (Except.ok [] : Except AoryxErr (List AoryxHotelSummary)) = .ok r.hotels := h3
    injection h4 with h5
    exact h5.symm

/-- C4 witness: a response whose `Hotels.Hotel` is the single object
`{Code: "H1"}` yields exactly that hotel's normalization. -/
theorem search_single_hotel_witness :
    (⟨"sid", none, none, none, none,
        [hotelSummaryOf (Json.obj [("Code", Json.str "H1")]) none]⟩ :
      AoryxSearchResult).hotels =
      [hotelSummaryOf (Json.obj [("Code", Json.str "H1")])
        (searchCurrency (Json.obj [("GeneralInfo", Json.obj [("SessionId", Json.str "sid")]),
          ("Hotels", Json.obj [("Hotel", Json.obj [("Code", Json.str "H1")])])]))] :=
  (search_single_hotel_normalization
    (Json.obj [("GeneralInfo", Json.obj [("SessionId", Json.str "sid")]),
      ("Hotels", Json.obj [("Hotel", Json.obj [("Code", Json.str "H1")])])])
    (by simp)).1 [("Code", Json.str "H1")]
    ⟨"sid", none, none, none, none, [hotelSummaryOf (Json.obj [("Code", Json.str "H1")]) none]⟩
    rfl rfl

/-! ## C1: total null-fallback extraction -/

/-- C1 (amended): the pure value coercions (`toStringValue`, `toNumber`,
`toInteger`, `toBoolean`, `extractMoney`, `extractCancellationPolicy`) are
total over every JS value and return null for every unobtainable field; the
two normalizers are total except on a nullish argument, where an unguarded
property access (`hotel.Code`, `response.RoomDetails`) throws a JS
`TypeError` — reachable from vendor data, e.g. `Hotels.Hotel = [null]` — and
on every non-null argument they return records whose unobtainable fields are
all null. -/
theorem normalization_fallback_amended :
    (∀ v : JsVal, isStrVal v = false → isNumVal v = false →
      toStringValue v = none ∧ toNumber v = none ∧ toInteger v = none) ∧
    (∀ s : String, jsTrim s = "" → toStringValue (some (.str s)) = none) ∧
    (∀ v : JsVal, isBoolVal v = false → isNumVal v = false → isStrVal v = false →
      toBoolean v = none) ∧
    (∀ v : JsVal, isNumVal v = false → isStrVal v = false → isRecordVal v = false →
      extractMoney v = ⟨none, none⟩) ∧
    (∀ v : JsVal, isStrVal v = false → isArrVal v = false → isRecordVal v = false →
      extractCancellationPolicy v = none) ∧
    (∀ (j : Json) (cur : Option String), j ≠ .null →
      normalizeSearchHotel (some j) cur = .ok (hotelSummaryOf j cur)) ∧
    (∀ (j : Json) (cur : Option String), isRecordJ j = none →
      hotelSummaryOf j cur = ⟨none, none, none, cur, none, none, none, none, none, none⟩) ∧
    (∀ j : Json, j ≠ .null → normalizeRoomOptions j = .ok (normalizeRoomOptionsCore j)) ∧
    (∀ j : Json, isRecordJ j = none → isArrVal (some j) = false → j ≠ .null →
      normalizeRoomOptionsCore j = []) := by
  refine ⟨?_, ?_, ?_, ?_, ?_, ?_, ?_, ?_, ?_⟩
  · intro v hs hn
    match v with
    | none => exact ⟨rfl, rfl, rfl⟩
    | some .null => exact ⟨rfl, rfl, rfl⟩
    | some (.bool b) => exact ⟨rfl, rfl, rfl⟩
    | some (.arr l) => exact ⟨rfl, rfl, rfl⟩
    | some (.obj f) => exact ⟨rfl, rfl, rfl⟩
    | some (.num q) => simp [isNumVal] at hn
    | some (.str s) => simp [isStrVal] at hs
  · intro s h
    show (if (jsTrim s).length > 0 then some (jsTrim s) else none) = none
    rw [h]
    simp
  · intro v hb hn hs
    match v with
    | none => rfl
    | some .null => rfl
    | some (.arr l) => rfl
    | some (.obj f) => rfl
    | some (.bool b) => simp [isBoolVal] at hb
    | some (.num q) => simp [isNumVal] at hn
    | some (.str s) => simp [isStrVal] at hs
  · intro v hn hs hr
    match v with
    | none => rfl
    | some .null => rfl
    | some (.bool b) => rfl
    | some (.arr l) => rfl
    | some (.num q) => simp [isNumVal] at hn
    | some (.str s) => simp [isStrVal] at hs
    | some (.obj f) => simp [isRecordVal] at hr
  · intro v hs ha hr
    match v with
    | none => rfl
    | some .null => rfl
    | some (.bool b) => rfl
    | some (.num q) => rfl
    | some (.str s) => simp [isStrVal] at hs
    | some (.arr l) => simp [isArrVal] at ha
    | some (.obj f) => simp [isRecordVal] at hr
  · intro j cur hj
    match j with
    | .null => exact absurd rfl hj
    | .bool b => rfl
    | .num q => rfl
    | .str s => rfl
    | .arr l => rfl
    | .obj f => rfl
  · intro j cur hrec
    match j with
    | .obj f => simp [isRecordJ] at hrec
    | .null => rfl
    | .bool b => rfl
    | .num q => rfl
    | .str s => rfl
    | .arr l => rfl
  · intro j hj
    match j with
    | .null => exact absurd rfl hj
    | .bool b => rfl
    | .num q => rfl
    | .str s => rfl
    | .arr l => rfl
    | .obj f => rfl
  · intro j h1 h2 h3
    match j with
    | .null => exact absurd rfl h3
    | .arr l => simp [isArrVal] at h2
    | .obj f => simp [isRecordJ] at h1
    | .bool b => rfl
    | .num q => rfl
    | .str s => rfl

/-- C1 counterexample: `normalizeSearchHotel` applied to JSON `null` throws
(reads `hotel.Code` of `null`), and a vendor search response with
`Hotels.Hotel = [null]` drives `search` into that `TypeError` — so not every
normalization function returns null-filled results without throwing on
arbitrary malformed vendor data. -/
theorem normalizeSearchHotel_null_cex :
    normalizeSearchHotel (some Json.null) none = .error () ∧
    searchFromResponse (Json.obj [("GeneralInfo", Json.obj [("SessionId", Json.str "sid")]),
      ("Hotels", Json.obj [("Hotel", Json.arr [Json.null])])]) = .error .typeError :=
  ⟨rfl, rfl⟩

/-- C1 witness: the fallback conjuncts applied at concrete malformed values. -/
theorem normalization_fallback_witness :
    toStringValue (some (Json.bool true)) = none ∧
    toBoolean (some (Json.arr [])) = none ∧
    extractMoney (some (Json.bool false)) = ⟨none, none⟩ :=
  ⟨(normalization_fallback_amended.1 (some (Json.bool true)) rfl rfl).1,
    normalization_fallback_amended.2.2.1 (some (Json.arr [])) rfl rfl rfl,
    normalization_fallback_amended.2.2.2.1 (some (Json.bool false)) rfl rfl rfl⟩

/-! ## C10: room-option ids -/

theorem normalizeRoomOptions_ne_null (j : Json) (hj : j ≠ .null) :
    normalizeRoomOptions j = .ok (normalizeRoomOptionsCore j) := by
  match j with
  | .null => exact absurd rfl hj
  | .bool b => rfl
  | .num q => rfl
  | .str s => rfl
  | .arr l => rfl
  | .obj f => rfl

/-- C10 (amended): every room option produced by `normalizeRoomOptions` has a
non-null, non-empty string id, computed as `toStringValue` of the FIRST
non-nullish of the room's RoomCode, RateKey, RoomIndex, Id fields when that
conversion yields a string, and the synthetic `room-{k}` (k the 1-based
position) otherwise — so a non-nullish but unusable value (such as an empty
string) under an earlier field falls through to the synthetic id even when a
later field is usable. -/
theorem roomOption_id_nonempty_amended :
    ∀ (response : Json) (opts : List AoryxRoomOption),
      normalizeRoomOptions response = .ok opts →
      (∀ o ∈ opts, o.id ≠ "") ∧
      (∀ (i : Nat) (o : AoryxRoomOption), opts[i]? = some o →
        ∃ room, (resolvedRoomItems response)[i]? = some room ∧
          o.id = (toStringValue (idCandidate room)).getD ("room-" ++ toString (i + 1))) := by
  intro response opts hok
  have hnn : response ≠ .null := by
    intro he
    subst he
    cases hok
  rw [normalizeRoomOptions_ne_null response hnn] at hok
  injection hok with hcore
  subst hcore
  have hmain : ∀ (i : Nat) (o : AoryxRoomOption),
      (normalizeRoomOptionsCore response)[i]? = some o →
      ∃ room, (resolvedRoomItems response)[i]? = some room ∧
        o.id = (toStringValue (idCandidate room)).getD ("room-" ++ toString (i + 1)) := by
    intro i o hget
    unfold normalizeRoomOptionsCore at hget
    rw [List.getElem?_map, List.getElem?_enum] at hget
    cases hr : (resolvedRoomItems response)[i]? with
    | none =>
      rw [hr] at hget
      cases hget
    | some room =>
      rw [hr] at hget
      simp only [Option.map_some'] at hget
      cases hget
      exact ⟨room, rfl, rfl⟩
  refine ⟨?_, hmain⟩
  intro o ho
  rcases List.mem_iff_getElem?.mp ho with ⟨i, hget⟩
  rcases hmain i o hget with ⟨room, _, hid⟩
  rw [hid]
  cases hts : toStringValue (idCandidate room) with
  | some s =>
    rw [Option.getD_some]
    exact toStringValue_some_ne_empty _ _ hts
  | none =>
    simp only [Option.getD_none]
    intro he
    have hlen := congrArg String.length he
    rw [String.length_append] at hlen
    simp at hlen
    exact absurd hlen.1 (by decide)

/-- C10 counterexample: a room `{RoomCode: "", RateKey: "X"}` has `"X"` as the
first usable id field in the claim's sense, yet the code assigns the synthetic
id `room-1`: the empty string under `RoomCode` is non-nullish, stops the
coalescing chain, and fails `toStringValue`. -/
theorem roomOption_id_first_usable_cex :
    (normalizeRoomOptionsCore (Json.obj [("Rooms", Json.arr
        [Json.obj [("RoomCode", Json.str ""), ("RateKey", Json.str "X")]])])).map
      AoryxRoomOption.id = ["room-1"] ∧
    specFirstUsableId [("RoomCode", Json.str ""), ("RateKey", Json.str "X")] = some "X" ∧
    ("room-1" : String) ≠ "X" :=
  ⟨rfl, rfl, by decide⟩

/-- C10 witness: a room with a usable `RoomCode` gets that code as its
(nonempty) id. -/
theorem roomOption_id_witness : ("A1" : String) ≠ "" :=
  (roomOption_id_nonempty_amended
    (Json.obj [("Rooms", Json.arr [Json.obj [("RoomCode", Json.str "A1")]])])
    (normalizeRoomOptionsCore
      (Json.obj [("Rooms", Json.arr [Json.obj [("RoomCode", Json.str "A1")]])])) rfl).1
    (roomOptionOf [("RoomCode", Json.str "A1")] 0) (List.mem_singleton.mpr rfl)

/-! ## C6: nullable sort comparators -/

theorem compareNullable_le_iff (a b : Option ℚ) (dir : SortDir) :
    compareNullable a b dir ≤ 0 ↔ optKey a dir ≤ optKey b dir := by
  cases a <;> cases b <;> cases dir <;>
    simp only [compareNullable, optKey, dirVal, Prod.Lex.le_iff] <;>
    constructor <;> intro h <;>
    first
      | linarith
      | (rcases h with h | ⟨h1, h2⟩ <;> linarith)
      | (rcases h with ⟨h1, h2⟩ <;> linarith)
      | (constructor <;> first | trivial | linarith)
      | (left; linarith)
      | (right; constructor <;> first | trivial | linarith)
      | trivial

theorem compareNullable_eq_zero_iff (a b : Option ℚ) (dir : SortDir) :
    compareNullable a b dir = 0 ↔ optKey a dir = optKey b dir := by
  cases a <;> cases b <;> cases dir <;>
    simp only [compareNullable, optKey, dirVal, toLex_inj, Prod.mk.injEq] <;>
    constructor <;> intro h <;>
    first
      | linarith
      | (rcases h with h | ⟨h1, h2⟩ <;> linarith)
      | (rcases h with ⟨h1, h2⟩ <;> linarith)
      | (constructor <;> first | trivial | linarith)
      | (left; linarith)
      | (right; constructor <;> first | trivial | linarith)
      | trivial

theorem lexCompare_le_iff (a1 b1 a2 b2 : Option ℚ) (d1 d2 : SortDir) :
    (if compareNullable a1 b1 d1 ≠ 0 then compareNullable a1 b1 d1
      else compareNullable a2 b2 d2) ≤ 0 ↔
      toLex (optKey a1 d1, optKey a2 d2) ≤ toLex (optKey b1 d1, optKey b2 d2) := by
  split_ifs with h
  · rw [Prod.Lex.le_iff]
    constructor
    · intro hle
      left
      exact lt_of_le_of_ne ((compareNullable_le_iff a1 b1 d1).mp hle)
        fun heq => h ((compareNullable_eq_zero_iff a1 b1 d1).mpr heq)
    · rintro (hlt | ⟨heq, _⟩)
      · exact (compareNullable_le_iff a1 b1 d1).mpr hlt.le
      · exact absurd ((compareNullable_eq_zero_iff a1 b1 d1).mpr heq) h
  · push_neg at h
    have hk := (compareNullable_eq_zero_iff a1 b1 d1).mp h
    rw [Prod.Lex.le_iff, hk]
    simp only [lt_self_iff_false, false_or, true_and]
    exact compareNullable_le_iff a2 b2 d2

theorem hotelCmp_le_iff (sb : SortBy) (a b : AoryxHotelSummary) :
    hotelCmp sb a b ≤ 0 ↔ hotelKey sb a ≤ hotelKey sb b := by
  cases sb with
  | priceAsc => exact lexCompare_le_iff a.minPrice b.minPrice a.rating b.rating .asc .desc
  | priceDesc => exact lexCompare_le_iff a.minPrice b.minPrice a.rating b.rating .desc .desc
  | ratingAsc => exact lexCompare_le_iff a.rating b.rating a.minPrice b.minPrice .asc .asc
  | ratingDesc => exact lexCompare_le_iff a.rating b.rating a.minPrice b.minPrice .desc .asc

theorem hotelLe_trans (sb : SortBy) (a b c : AoryxHotelSummary)
    (hab : decide (hotelCmp sb a b ≤ 0) = true) (hbc : decide (hotelCmp sb b c ≤ 0) = true) :
    decide (hotelCmp sb a c ≤ 0) = true := by
  rw [decide_eq_true_iff] at *
  exact (hotelCmp_le_iff sb a c).mpr
    (le_trans ((hotelCmp_le_iff sb a b).mp hab) ((hotelCmp_le_iff sb b c).mp hbc))

theorem hotelLe_total (sb : SortBy) (a b : AoryxHotelSummary) :
    (decide (hotelCmp sb a b ≤ 0) || decide (hotelCmp sb b a ≤ 0)) = true := by
  rcases le_total (hotelKey sb a) (hotelKey sb b) with h | h
  · rw [Bool.or_eq_true, decide_eq_true_iff]
    exact Or.inl ((hotelCmp_le_iff sb a b).mpr h)
  · rw [Bool.or_eq_true, decide_eq_true_iff, decide_eq_true_iff]
    exact Or.inr ((hotelCmp_le_iff sb b a).mpr h)

theorem cmp_one_of_missing (y : ℚ) (a1 b1 a2 b2 : Option ℚ) (d1 d2 : SortDir)
    (h1 : a1 = none) (h2 : b1 = some y) :
    (if compareNullable a1 b1 d1 ≠ 0 then compareNullable a1 b1 d1
      else compareNullable a2 b2 d2) = 1 := by
  subst h1
  subst h2
  cases d1 <;> simp [compareNullable]

/-- C6: under each of the four sort modes of the results page (price or rating,
ascending or descending), the sorted hotel list never places an entry lacking
the sort field before an entry that has it: pairwise, once an entry is missing
the field, every later entry is missing it too. -/
theorem sort_missing_after_present :
    ∀ (sb : SortBy) (hs : List AoryxHotelSummary),
      List.Pairwise (fun a b => sortField sb a = none → sortField sb b = none)
        (sortedHotels sb hs) := by
  intro sb hs
  have hp := @List.sorted_mergeSort AoryxHotelSummary
    (fun a b => decide (hotelCmp sb a b ≤ 0))
    (fun a b c => hotelLe_trans sb a b c) (fun a b => hotelLe_total sb a b) hs
  refine hp.imp ?_
  intro a b hle hna
  rw [decide_eq_true_iff] at hle
  cases hb : sortField sb b with
  | none => rfl
  | some y =>
    exfalso
    cases sb with
    | priceAsc =>
      have h2 : hotelCmp .priceAsc a b = 1 :=
        cmp_one_of_missing y a.minPrice b.minPrice a.rating b.rating .asc .desc hna hb
      rw [h2] at hle
      norm_num at hle
    | priceDesc =>
      have h2 : hotelCmp .priceDesc a b = 1 :=
        cmp_one_of_missing y a.minPrice b.minPrice a.rating b.rating .desc .desc hna hb
      rw [h2] at hle
      norm_num at hle
    | ratingAsc =>
      have h2 : hotelCmp .ratingAsc a b = 1 :=
        cmp_one_of_missing y a.rating b.rating a.minPrice b.minPrice .asc .asc hna hb
      rw [h2] at hle
      norm_num at hle
    | ratingDesc =>
      have h2 : hotelCmp .ratingDesc a b = 1 :=
        cmp_one_of_missing y a.rating b.rating a.minPrice b.minPrice .desc .asc hna hb
      rw [h2] at hle
      norm_num at hle

/-- C6 witness: the ordering property at a concrete two-hotel list under
price-ascending sort. -/
theorem sort_missing_after_present_witness :
    List.Pairwise
      (fun a b => sortField SortBy.priceAsc a = none → sortField SortBy.priceAsc b = none)
      (sortedHotels SortBy.priceAsc
        [⟨none, none, none, none, none, none, none, none, none, none⟩,
          ⟨none, none, some 5, none, none, none, none, none, none, none⟩]) :=
  sort_missing_after_present SortBy.priceAsc
    [⟨none, none, none, none, none, none, none, none, none, none⟩,
      ⟨none, none, some 5, none, none, none, none, none, none, none⟩]

/-! ## C5: the fallback room-candidate scanner -/

theorem collect_members_ne_nil :
    (∀ j : Json, ∀ c ∈ collectCandidates j, c ≠ []) ∧
    (∀ fs : List (String × Json), ∀ c ∈ collectFields fs, c ≠ []) ∧
    (∀ l : List Json, ∀ c ∈ collectList l, c ≠ []) := by
  refine collectCandidates.mutual_induct
    (fun j => ∀ c ∈ collectCandidates j, c ≠ [])
    (fun fs => ∀ c ∈ collectFields fs, c ≠ [])
    (fun l => ∀ c ∈ collectList l, c ≠ [])
    ?_ ?_ ?_ ?_ ?_ ?_ ?_
  · intro items ih c hc
    simp only [collectCandidates] at hc
    rw [List.mem_append] at hc
    rcases hc with hc | hc
    · by_cases hcond : (items.filterMap isRecordJ).length > 0 ∧
        (items.filterMap isRecordJ).any hasRoomSignature
      · rw [if_pos hcond] at hc
        rw [List.mem_singleton.mp hc]
        exact List.length_pos.mp hcond.1
      · rw [if_neg hcond] at hc
        cases hc
    · exact ih c hc
  · intro fields ih c hc
    simp only [collectCandidates] at hc
    exact ih c hc
  · intro t harr hobj c hc
    cases t with
    | arr items => exact (harr items rfl).elim
    | obj fields => exact (hobj fields rfl).elim
    | null =>
      rw [show collectCandidates Json.null = [] from rfl] at hc
      cases hc
    | bool b =>
      rw [show collectCandidates (Json.bool b) = [] from rfl] at hc
      cases hc
    | num q =>
      rw [show collectCandidates (Json.num q) = [] from rfl] at hc
      cases hc
    | str s =>
      rw [show collectCandidates (Json.str s) = [] from rfl] at hc
      cases hc
  · intro c hc
    rw [show collectList [] = [] from rfl] at hc
    cases hc
  · intro j rest ih1 ih2 c hc
    simp only [collectList] at hc
    rw [List.mem_append] at hc
    rcases hc with hc | hc
    · exact ih1 c hc
    · exact ih2 c hc
  · intro c hc
    rw [show collectFields [] = [] from rfl] at hc
    cases hc
  · intro f rest ih1 ih2 c hc
    simp only [collectFields] at hc
    rw [List.mem_append] at hc
    rcases hc with hc | hc
    · exact ih1 c hc
    · exact ih2 c hc

theorem findRoomCandidates_spec (v : Json) (hne : collectCandidates v ≠ []) :
    findRoomCandidates v ∈ collectCandidates v ∧
    ∀ c ∈ collectCandidates v, c.length ≤ (findRoomCandidates v).length := by
  unfold findRoomCandidates
  rw [if_neg (by simpa [List.length_eq_zero] using hne)]
  have hperm := List.mergeSort_perm (collectCandidates v)
    (fun a b => decide (b.length ≤ a.length))
  have hsort := @List.sorted_mergeSort (List (List (String × Json)))
    (fun a b => decide (b.length ≤ a.length))
    (fun a b c hab hbc => by
      rw [decide_eq_true_iff] at *
      omega)
    (fun a b => by
      rw [Bool.or_eq_true, decide_eq_true_iff, decide_eq_true_iff]
      omega)
    (collectCandidates v)
  cases hs : (collectCandidates v).mergeSort (fun a b => decide (b.length ≤ a.length)) with
  | nil =>
    exfalso
    apply hne
    have hl := hperm.length_eq
    rw [hs] at hl
    exact List.length_eq_zero.mp hl.symm
  | cons c rest =>
    show c ∈ collectCandidates v ∧ ∀ c' ∈ collectCandidates v, c'.length ≤ c.length
    constructor
    · have hm : c ∈ (collectCandidates v).mergeSort
          (fun a b => decide (b.length ≤ a.length)) := by
        rw [hs]
        exact List.mem_cons_self c rest
      exact List.mem_mergeSort.mp hm
    · intro c' hc'
      have h2 : c' ∈ c :: rest := by
        rw [← hs]
        exact List.mem_mergeSort.mpr hc'
      rcases List.mem_cons.mp h2 with he | hm
      · rw [he]
      · rw [hs] at hsort
        have h3 := (List.pairwise_cons.mp hsort).1 c' hm
        rw [decide_eq_true_iff] at h3
        exact h3

/-- C5: when none of the three known room-list key paths yields a record but
the response contains, anywhere, a nested array of records with a room-like
key (so the visit collects at least one candidate array), `normalizeRoomOptions`
still produces its room options from the fallback scanner's pick, which is a
largest collected candidate array and in particular nonempty. -/
theorem fallback_room_scan :
    ∀ response : Json, response ≠ .null →
      roomItemsOf response = [] →
      collectCandidates response ≠ [] →
      findRoomCandidates response ∈ collectCandidates response ∧
      (∀ c ∈ collectCandidates response, c.length ≤ (findRoomCandidates response).length) ∧
      findRoomCandidates response ≠ [] ∧
      normalizeRoomOptions response =
        .ok ((findRoomCandidates response).enum.map fun p => roomOptionOf p.2 p.1) := by
  intro response hnn hitems hne
  obtain ⟨hmem, hmax⟩ := findRoomCandidates_spec response hne
  refine ⟨hmem, hmax, collect_members_ne_nil.1 response _ hmem, ?_⟩
  rw [normalizeRoomOptions_ne_null response hnn]
  unfold normalizeRoomOptionsCore resolvedRoomItems
  rw [hitems]
  simp

/-- C5 witness: a response whose only room-like array sits under unrelated
nested keys is still found by the fallback scanner. -/
theorem fallback_room_scan_witness :
    findRoomCandidates (Json.obj [("Weird", Json.obj [("Deep",
      Json.arr [Json.obj [("RoomType", Json.str "dbl")], Json.num 3])])]) ≠ [] :=
  (fallback_room_scan
    (Json.obj [("Weird", Json.obj [("Deep",
      Json.arr [Json.obj [("RoomType", Json.str "dbl")], Json.num 3])])])
    (by simp) rfl
    (by
      rw [show collectCandidates (Json.obj [("Weird", Json.obj [("Deep",
        Json.arr [Json.obj [("RoomType", Json.str "dbl")], Json.num 3])])]) =
        [[[("RoomType", Json.str "dbl")]]] from rfl]
      simp)).2.2.1

/-! ## C3: the favorites toggle -/

theorem upsertFav_of_none (s : FavStore) (u hc : String) (d : FavDoc)
    (h : findOneFav s u hc = none) : upsertFav s u hc d = s ++ [d] := by
  unfold upsertFav
  rw [h]

theorem findOneFav_erase_self (s : FavStore) (u hc : String) (d : FavDoc)
    (hnodup : (s.map FavDoc.docId).Nodup)
    (hcount : (s.filter (favKeyMatches u hc)).length ≤ 1)
    (hfind : findOneFav s u hc = some d) :
    findOneFav (deleteOneById s d.docId) u hc = none := by
  induction s with
  | nil => cases hfind
  | cons e rest ih =>
    by_cases hp : favKeyMatches u hc e = true
    · have he : findOneFav (e :: rest) u hc = some e := by
        unfold findOneFav
        rw [List.find?_cons_of_pos _ hp]
      rw [he] at hfind
      injection hfind with hd
      subst hd
      have hdel : deleteOneById (e :: rest) e.docId = rest := by
        unfold deleteOneById
        rw [List.eraseP_cons]
        simp
      rw [hdel]
      rw [List.filter_cons_of_pos hp] at hcount
      simp at hcount
      unfold findOneFav
      rw [List.find?_eq_none]
      intro x hx
      simp [hcount x hx]
    · have hfind2 : findOneFav rest u hc = some d := by
        unfold findOneFav at hfind
        rwa [List.find?_cons_of_neg _ hp] at hfind
      have hdmem : d ∈ rest := List.mem_of_find?_eq_some hfind2
      have hne : (e.docId == d.docId) = false := by
        rw [beq_eq_false_iff_ne]
        intro heq
        apply (List.nodup_cons.mp hnodup).1
        rw [heq]
        exact List.mem_map_of_mem FavDoc.docId hdmem
      have hdel : deleteOneById (e :: rest) d.docId
          = e :: deleteOneById rest d.docId := by
        unfold deleteOneById
        rw [List.eraseP_cons, hne]
        rfl
      rw [hdel]
      unfold findOneFav
      rw [List.find?_cons_of_neg _ hp]
      exact ih (List.nodup_cons.mp hnodup).2
        (by rwa [List.filter_cons_of_neg hp] at hcount) hfind2

theorem deleteOne_appended (s : FavStore) (d : FavDoc)
    (hfresh : d.docId ∉ s.map FavDoc.docId) :
    deleteOneById (s ++ [d]) d.docId = s := by
  induction s with
  | nil =>
    unfold deleteOneById
    simp [List.eraseP_cons]
  | cons e rest ih =>
    have hne : (e.docId == d.docId) = false := by
      rw [beq_eq_false_iff_ne]
      intro heq
      apply hfresh
      rw [← heq]
      exact List.mem_map_of_mem FavDoc.docId (List.mem_cons_self e rest)
    have hrest : d.docId ∉ rest.map FavDoc.docId := by
      intro hm
      exact hfresh (List.mem_map.mpr
        (by rcases List.mem_map.mp hm with ⟨x, hx, hxe⟩; exact ⟨x, List.mem_cons_of_mem e hx, hxe⟩))
    unfold deleteOneById at *
    rw [List.cons_append, List.eraseP_cons, hne]
    show e :: List.eraseP (fun x => x.docId == d.docId) (rest ++ [d]) = e :: rest
    rw [ih hrest]

/-- C3: toggling a favorite twice for the same `(userIdString, hotelCode)` —
under the collection invariants (unique `_id`s, a fresh `_id` for the insert,
at most one document per key) — returns `isFavorite` false then true, or true
then false; after each POST the returned value equals the presence of the key
in `user_favorites`; and the second POST restores the original membership. -/
theorem favorites_toggle_roundtrip :
    ∀ (s : FavStore) (u hc : String) (body1 body2 : JsVal) (now1 id1 now2 id2 : Nat),
      (s.map FavDoc.docId).Nodup →
      id1 ∉ s.map FavDoc.docId →
      (s.filter (favKeyMatches u hc)).length ≤ 1 →
      ((postFav s u hc body1 now1 id1).2 = !isFav s u hc) ∧
      ((postFav s u hc body1 now1 id1).2
        = isFav (postFav s u hc body1 now1 id1).1 u hc) ∧
      ((postFav (postFav s u hc body1 now1 id1).1 u hc body2 now2 id2).2
        = !(postFav s u hc body1 now1 id1).2) ∧
      ((postFav (postFav s u hc body1 now1 id1).1 u hc body2 now2 id2).2
        = isFav (postFav (postFav s u hc body1 now1 id1).1 u hc body2 now2 id2).1 u hc) ∧
      (isFav (postFav (postFav s u hc body1 now1 id1).1 u hc body2 now2 id2).1 u hc
        = isFav s u hc) := by
  intro s u hc body1 body2 now1 id1 now2 id2 hnodup hfresh hcount
  have hmatch2 : favKeyMatches u hc (favPayloadDoc u hc body2 now2 id2) = true := by
    simp [favKeyMatches, favPayloadDoc]
  have hmatch1 : favKeyMatches u hc (favPayloadDoc u hc body1 now1 id1) = true := by
    simp [favKeyMatches, favPayloadDoc]
  cases hfind : findOneFav s u hc with
  | some d =>
    have hpost1 : postFav s u hc body1 now1 id1 = (deleteOneById s d.docId, false) := by
      unfold postFav
      rw [hfind]
    have hfav : isFav s u hc = true := by
      unfold isFav
      rw [hfind]
      rfl
    have hafter : findOneFav (deleteOneById s d.docId) u hc = none :=
      findOneFav_erase_self s u hc d hnodup hcount hfind
    have hfav1 : isFav (deleteOneById s d.docId) u hc = false := by
      unfold isFav
      rw [hafter]
      rfl
    have hpost2 : postFav (deleteOneById s d.docId) u hc body2 now2 id2
        = (upsertFav (deleteOneById s d.docId) u hc (favPayloadDoc u hc body2 now2 id2),
          true) := by
      unfold postFav
      rw [hafter]
    have hup : upsertFav (deleteOneById s d.docId) u hc (favPayloadDoc u hc body2 now2 id2)
        = deleteOneById s d.docId ++ [favPayloadDoc u hc body2 now2 id2] :=
      upsertFav_of_none _ _ _ _ hafter
    have hfav2 : isFav (deleteOneById s d.docId
        ++ [favPayloadDoc u hc body2 now2 id2]) u hc = true := by
      unfold isFav findOneFav
      rw [List.find?_append]
      unfold findOneFav at hafter
      rw [hafter]
      simp [List.find?_cons_of_pos _ hmatch2]
    rw [hpost1, hpost2, hup]
    refine ⟨?_, ?_, ?_, ?_, ?_⟩ <;> simp [hfav, hfav1, hfav2]
  | none =>
    have hpost1 : postFav s u hc body1 now1 id1
        = (upsertFav s u hc (favPayloadDoc u hc body1 now1 id1), true) := by
      unfold postFav
      rw [hfind]
    have hfav : isFav s u hc = false := by
      unfold isFav
      rw [hfind]
      rfl
    have hup : upsertFav s u hc (favPayloadDoc u hc body1 now1 id1)
        = s ++ [favPayloadDoc u hc body1 now1 id1] := upsertFav_of_none _ _ _ _ hfind
    have hfind1 : findOneFav (s ++ [favPayloadDoc u hc body1 now1 id1]) u hc
        = some (favPayloadDoc u hc body1 now1 id1) := by
      unfold findOneFav
      rw [List.find?_append]
      unfold findOneFav at hfind
      rw [hfind]
      simp [List.find?_cons_of_pos _ hmatch1]
    have hfav1 : isFav (s ++ [favPayloadDoc u hc body1 now1 id1]) u hc = true := by
      unfold isFav
      rw [hfind1]
      rfl
    have hpost2 : postFav (s ++ [favPayloadDoc u hc body1 now1 id1]) u hc body2 now2 id2
        = (deleteOneById (s ++ [favPayloadDoc u hc body1 now1 id1])
            (favPayloadDoc u hc body1 now1 id1).docId, false) := by
      unfold postFav
      rw [hfind1]
    have hdel : deleteOneById (s ++ [favPayloadDoc u hc body1 now1 id1])
        (favPayloadDoc u hc body1 now1 id1).docId = s :=
      deleteOne_appended s (favPayloadDoc u hc body1 now1 id1) hfresh
    rw [hpost1, hup, hpost2, hdel]
    refine ⟨?_, ?_, ?_, ?_, ?_⟩ <;> simp [hfav, hfav1]

/-- C3 witness: toggling twice on a concrete one-user store starting from the
empty collection. -/
theorem favorites_toggle_witness :
    ((postFav [] "u1" "H7" none 5 100).2 = !isFav [] "u1" "H7") ∧
    (isFav (postFav (postFav [] "u1" "H7" none 5 100).1 "u1" "H7" none 6 101).1 "u1" "H7"
      = isFav [] "u1" "H7") := by
  have h := favorites_toggle_roundtrip [] "u1" "H7" none none 5 100 6 101
    (by simp) (by simp) (by simp)
  exact ⟨h.1, h.2.2.2.2⟩
